import Mathlib

/-!
Verification development for the stboot partition-finding module
(`partitions.go`).  The Go code is shallowly embedded: Go byte strings
become `List Nat` (each element `< 256`), the external effects of
`findPartition` / `deviceByPartLabel` (reading `/proc/filesystems`,
enumerating `/sys/class/block`, opening devices, parsing GPT tables,
mounting) become explicit oracle parameters, and every embedded function
is an executable Lean `def`.
-/

/-! ## Label codec (`decodeLabel`, partitions.go lines 167-186) -/

/-- A UTF-16 surrogate code unit (either half of a pair). -/
def isSurrogate (u : Nat) : Prop := 0xD800 ≤ u ∧ u < 0xE000

instance (u : Nat) : Decidable (isSurrogate u) := by
  unfold isSurrogate; infer_instance

/-- Go `utf16.Decode` applied to the single code unit `u` (the code calls
it on a one-element slice): a lone surrogate half can never see its
partner, so it decodes to the replacement character U+FFFD; every other
unit decodes to itself. -/
def utf16DecodeUnit (u : Nat) : Nat :=
  if isSurrogate u then 0xFFFD else u

/-- Go `utf8.EncodeRune`: UTF-8 bytes of rune `r` (surrogates and
out-of-range runes encode the replacement character U+FFFD). -/
def utf8EncodeRune (r : Nat) : List Nat :=
  if r ≤ 0x7F then [r]
  else if r ≤ 0x7FF then [0xC0 + r / 64, 0x80 + r % 64]
  else if 0x10FFFF < r ∨ isSurrogate r then [0xEF, 0xBF, 0xBD]
  else if r ≤ 0xFFFF then [0xE0 + r / 4096, 0x80 + (r / 64) % 64, 0x80 + r % 64]
  else [0xF0 + r / 262144, 0x80 + (r / 4096) % 64, 0x80 + (r / 64) % 64, 0x80 + r % 64]

/-- Go `strings.Trim(s, "\x00")`: remove NUL from both ends.  A NUL rune
is the single byte `0x00` and no other rune's UTF-8 encoding contains a
`0x00` byte, so at the byte level this drops leading and trailing zero
bytes. -/
def trimNul (l : List Nat) : List Nat :=
  ((l.dropWhile (· == 0)).reverse.dropWhile (· == 0)).reverse

/-- The loop body of `decodeLabel`: consume the bytes two at a time,
assemble the little-endian code unit `b[i] + b[i+1] << 8`, decode it as a
single UTF-16 unit and append its UTF-8 encoding. -/
def decodeLabelBytes : List Nat → List Nat
  | b0 :: b1 :: rest =>
    utf8EncodeRune (utf16DecodeUnit (b0 + b1 * 256)) ++ decodeLabelBytes rest
  | _ => []

/-- `decodeLabel` (partitions.go 167-186): reject odd-length input,
otherwise decode pairwise and trim NULs from both ends. -/
def decodeLabel (b : List Nat) : Except String (List Nat) :=
  if b.length % 2 ≠ 0 then .error "label has odd number of bytes"
  else .ok (trimNul (decodeLabelBytes b))

/-! Spec-side helpers for the codec claims: serializing 16-bit code units
to little-endian bytes, the standard UTF-16 encoder and a UTF-8 decoder
(used only to express the "re-encode the decoded string" direction of the
round-trip claim; none of these model repository code). -/

/-- Concatenation of a list of byte lists. -/
def flatCat : List (List Nat) → List Nat
  | [] => []
  | l :: ls => l ++ flatCat ls

/-- Little-endian byte serialization of a sequence of 16-bit code units. -/
def utf16LEBytes (us : List Nat) : List Nat :=
  flatCat (us.map (fun u => [u % 256, u / 256]))

/-- Standard UTF-16 encoding of one Unicode scalar value. -/
def utf16EncodeRune (r : Nat) : List Nat :=
  if r < 0x10000 then [r]
  else [0xD800 + (r - 0x10000) / 1024, 0xDC00 + (r - 0x10000) % 1024]

/-- Standard UTF-16 encoding of a rune sequence, as code units. -/
def utf16Encode (rs : List Nat) : List Nat :=
  flatCat (rs.map utf16EncodeRune)

/-- UTF-8 decoder (spec side, total; applied only to valid UTF-8 in the
theorems below: the multi-byte arms reconstruct the scalar from the
length signalled by the leading byte, truncated sequences yield the
replacement character). -/
def utf8DecodeList : List Nat → List Nat
  | [] => []
  | [b0] =>
    if b0 < 0x80 then [b0] else [0xFFFD]
  | [b0, b1] =>
    if b0 < 0x80 then b0 :: utf8DecodeList [b1]
    else if b0 < 0xE0 then [(b0 - 0xC0) * 64 + (b1 - 0x80)]
    else [0xFFFD]
  | [b0, b1, b2] =>
    if b0 < 0x80 then b0 :: utf8DecodeList [b1, b2]
    else if b0 < 0xE0 then ((b0 - 0xC0) * 64 + (b1 - 0x80)) :: utf8DecodeList [b2]
    else if b0 < 0xF0 then [(b0 - 0xE0) * 4096 + (b1 - 0x80) * 64 + (b2 - 0x80)]
    else [0xFFFD]
  | b0 :: b1 :: b2 :: b3 :: rest =>
    if b0 < 0x80 then b0 :: utf8DecodeList (b1 :: b2 :: b3 :: rest)
    else if b0 < 0xE0 then
      ((b0 - 0xC0) * 64 + (b1 - 0x80)) :: utf8DecodeList (b2 :: b3 :: rest)
    else if b0 < 0xF0 then
      ((b0 - 0xE0) * 4096 + (b1 - 0x80) * 64 + (b2 - 0x80)) :: utf8DecodeList (b3 :: rest)
    else
      ((b0 - 0xF0) * 262144 + (b1 - 0x80) * 4096 + (b2 - 0x80) * 64 + (b3 - 0x80))
        :: utf8DecodeList rest

/-- Bytes of an ASCII Lean string literal (used for concrete examples). -/
def asciiBytes (s : String) : List Nat := s.toList.map Char.toNat

instance {ε α : Type _} [DecidableEq ε] [DecidableEq α] : DecidableEq (Except ε α) := fun a b =>
  match a, b with
  | .error e, .error f =>
    if h : e = f then .isTrue (by subst h; rfl)
    else .isFalse (by intro hc; cases hc; exact h rfl)
  | .error _, .ok _ => .isFalse (by intro hc; cases hc)
  | .ok _, .error _ => .isFalse (by intro hc; cases hc)
  | .ok x, .ok y =>
    if h : x = y then .isTrue (by subst h; rfl)
    else .isFalse (by intro hc; cases hc; exact h rfl)

/-! ## Partition locator and path resolver
(`deviceByPartLabel`, partitions.go lines 111-165)

A `Device` bundles the device path string with an oracle describing what
inspecting the path yields: `os.Open` failure, `fd.Seek` failure,
`gpt.ReadTable` failure, or a parsed partition array.  A `Partition`
carries the two fields the code consumes, `IsEmpty()` and
`PartNameUTF16[:]`. -/

structure Partition where
  isEmpty : Bool
  partNameUTF16 : List Nat
deriving DecidableEq

inductive Access where
  | openFail
  | seekFail
  | parseFail
  | table (parts : List Partition)
deriving DecidableEq

structure Device where
  path : List Nat
  access : Access
deriving DecidableEq

inductive LocError where
  | cannotFind (p d : List Nat)
  | noDeviceWithLabel
deriving DecidableEq

/-- Go `strconv.Itoa` digits, most significant first (`n ≥ 1`); the first
argument is structural fuel, sufficient whenever `n ≤ fuel`. -/
def itoaAux : Nat → Nat → List Nat
  | _, 0 => []
  | 0, _ + 1 => []
  | fuel + 1, n + 1 => itoaAux fuel ((n + 1) / 10) ++ [48 + (n + 1) % 10]

/-- Go `strconv.Itoa`: decimal byte string of `n`. -/
def itoa (n : Nat) : List Nat :=
  if n = 0 then [48] else itoaAux n n

/-- Inner loop of `deviceByPartLabel` over `table.Partitions`: `n` counts
the entries already passed (Go's 0-based range index).  Skip empty
entries, skip entries whose label fails to decode, and return the 1-based
index `n+1` of the first entry whose decoded label equals `label`. -/
def scanParts (label : List Nat) : List Partition → Nat → Option Nat
  | [], _ => none
  | part :: rest, n =>
    if part.isEmpty then scanParts label rest (n + 1)
    else
      match decodeLabel part.partNameUTF16 with
      | .error _ => scanParts label rest (n + 1)
      | .ok l => if l = label then some (n + 1) else scanParts label rest (n + 1)

/-- Outer loop of `deviceByPartLabel`: `d` and `p` are the mutable
variables of the Go code (`""` = `[]`), updated on a match and tested by
`if d != "" && p != ""` after each completed inner loop.  Open, seek and
parse failures `continue` to the next device. -/
def locateAux (label : List Nat) : List Nat → List Nat → List Device → List Nat × List Nat
  | d, p, [] => (d, p)
  | d, p, dev :: rest =>
    match dev.access with
    | .openFail => locateAux label d p rest
    | .seekFail => locateAux label d p rest
    | .parseFail => locateAux label d p rest
    | .table parts =>
      match scanParts label parts 0 with
      | some n =>
        if dev.path ≠ [] ∧ itoa n ≠ [] then (dev.path, itoa n)
        else locateAux label dev.path (itoa n) rest
      | none =>
        if d ≠ [] ∧ p ≠ [] then (d, p) else locateAux label d p rest

/-- Second loop of `deviceByPartLabel`: first device path that has `d` as
a prefix and whose remainder after stripping `d` contains `p` as a
substring (`strings.HasPrefix` / `strings.TrimPrefix` /
`strings.Contains`). -/
def resolveLoop (d p : List Nat) : List (List Nat) → Option (List Nat)
  | [] => none
  | path :: rest =>
    if d <+: path ∧ p <:+: path.drop d.length then some path
    else resolveLoop d p rest

/-- The resolution phase of `deviceByPartLabel`: the loop above, with the
`"Cannot find partition %s of %s"` error when nothing matches. -/
def resolvePartitionPath (paths : List (List Nat)) (d p : List Nat) : Except LocError (List Nat) :=
  match resolveLoop d p paths with
  | some path => .ok path
  | none => .error (.cannotFind p d)

/-- `deviceByPartLabel` (partitions.go 111-165): locate the label, then
resolve the partition path over the same device list; `"No device with
partition labeled"` when the locate phase set nothing. -/
def deviceByPartLabel (devices : List Device) (label : List Nat) : Except LocError (List Nat) :=
  let dp := locateAux label [] [] devices
  if dp.1 ≠ [] ∧ dp.2 ≠ [] then resolvePartitionPath (devices.map Device.path) dp.1 dp.2
  else .error .noDeviceWithLabel

/-! Spec-side restatement of the locate phase, written from the claim's
words: iterate devices in list order, iterate each parsed partition array
in order with 1-based indexing, skip empty entries and entries whose
label fails to decode, stop at the first exact label match. -/

/-- First 1-based index of a non-empty entry whose decoded label equals
`label` (claim-side formulation of the inner loop). -/
def findEntrySpec (label : List Nat) : List Partition → Nat → Option Nat
  | [], _ => none
  | part :: rest, n =>
    if part.isEmpty = false ∧ decodeLabel part.partNameUTF16 = .ok label then some (n + 1)
    else findEntrySpec label rest (n + 1)

/-- First device (with the matching entry's 1-based index) in
enumeration-then-partition-array order (claim-side formulation). -/
def locateSpec (label : List Nat) : List Device → Option (List Nat × Nat)
  | [] => none
  | dev :: rest =>
    match dev.access with
    | .table parts =>
      match findEntrySpec label parts 0 with
      | some n => some (dev.path, n)
      | none => locateSpec label rest
    | _ => locateSpec label rest

/-! ## Retry orchestrator (`findPartition`, partitions.go lines 41-82)

`getBlockDevs` is external I/O; it is modelled as an oracle
`enum : Nat → Option (List Device)` assigning to each call number its
outcome (`none` = walk error).  The `/proc/filesystems` read and the
mount call are oracles as well.  The embedding counts enumeration
attempts and `time.Sleep(time.Second)` calls so that the retry claims can
be stated. -/

inductive WErr where
  | enumFail
  | noDevices
deriving DecidableEq

structure WaitOutcome where
  result : Except WErr (List Device)
  attempts : Nat
  sleeps : Nat
deriving DecidableEq

/-- The device-waiting loop of `findPartition`: call the enumerator; a
walk error aborts; an empty list fails when `timeout` is zero and
otherwise decrements `timeout`, sleeps one second and retries; a
non-empty list exits the loop.  `i` numbers the enumeration calls. -/
def waitLoop (enum : Nat → Option (List Device)) (i : Nat) : Nat → WaitOutcome
  | 0 =>
    match enum i with
    | none => ⟨.error .enumFail, 1, 0⟩
    | some [] => ⟨.error .noDevices, 1, 0⟩
    | some devs => ⟨.ok devs, 1, 0⟩
  | t + 1 =>
    match enum i with
    | none => ⟨.error .enumFail, 1, 0⟩
    | some [] =>
      let r := waitLoop enum (i + 1) t
      ⟨r.result, r.attempts + 1, r.sleeps + 1⟩
    | some devs => ⟨.ok devs, 1, 0⟩

inductive FErr where
  | readFSFail
  | unsupportedFS
  | enumFail
  | noDevices
  | locate (e : LocError)
  | mountFail (dev : List Nat)
deriving DecidableEq

structure FindOutcome where
  result : Except FErr (List Nat)
  attempts : Nat
  sleeps : Nat
deriving DecidableEq

/-- `findPartition` (partitions.go 41-82): read `/proc/filesystems`
(oracle `procFS`; a read error is returned as is), check
`strings.Contains(fs, fsType)`, run the waiting loop, locate and resolve
the device by label, and mount it (oracle `mountOK`).  The result carries
the mounted device path; attempt and sleep counts are threaded through
from the waiting loop. -/
def findPartition (procFS : Option (List Nat)) (fsType : List Nat)
    (enum : Nat → Option (List Device)) (label : List Nat)
    (mountOK : List Nat → Bool) (timeout : Nat) : FindOutcome :=
  match procFS with
  | none => ⟨.error .readFSFail, 0, 0⟩
  | some fsText =>
    if ¬ (fsType <:+: fsText) then ⟨.error .unsupportedFS, 0, 0⟩
    else
      let w := waitLoop enum 0 timeout
      match w.result with
      | .error .enumFail => ⟨.error .enumFail, w.attempts, w.sleeps⟩
      | .error .noDevices => ⟨.error .noDevices, w.attempts, w.sleeps⟩
      | .ok devs =>
        match deviceByPartLabel devs label with
        | .error e => ⟨.error (.locate e), w.attempts, w.sleeps⟩
        | .ok dev =>
          if mountOK dev then ⟨.ok dev, w.attempts, w.sleeps⟩
          else ⟨.error (.mountFail dev), w.attempts, w.sleeps⟩

/-! Spec-side view of the capability list, written from the claim's
words: `/proc/filesystems` is a newline-separated list of lines whose
filesystem-type name is the field after the last tab; a type is *listed*
when it equals one of those names. -/

/-- Split a byte list on a separator byte. -/
def splitOn (sep : Nat) : List Nat → List (List Nat)
  | [] => [[]]
  | x :: rest =>
    if x = sep then [] :: splitOn sep rest
    else
      match splitOn sep rest with
      | [] => [[x]]
      | g :: gs => (x :: g) :: gs

/-- The filesystem types listed in a capability-list text (claim-side):
the nonempty last tab-field of each line. -/
def listedTypesSpec (text : List Nat) : List (List Nat) :=
  (((splitOn 10 text).map (fun line => ((splitOn 9 line).getLast?).getD [])).filter
    (fun t => ¬ t.isEmpty))

/-! ## File-handle trace of `deviceByPartLabel`

The Go code runs `defer fd.Close()` inside the device loop, so every
`Close` registered during the scan executes only when the whole function
returns (in LIFO order).  `scanTraceAux` replays the scan of the locate
phase and records the open/close events with that Go `defer` semantics:
`opened` is the stack of deferred file handles (device indices), emitted
when the function returns. -/

inductive FdEv where
  | openFd (i : Nat)
  | closeFd (i : Nat)
deriving DecidableEq

/-- Open/close events of `deviceByPartLabel` on `devs`, with `d`, `p`,
the deferred-close stack `opened` and the device counter `i` threaded
through exactly as in `locateAux`. -/
def scanTraceAux (label : List Nat) :
    List Nat → List Nat → List Nat → Nat → List Device → List FdEv
  | _, _, opened, _, [] => opened.map FdEv.closeFd
  | d, p, opened, i, dev :: rest =>
    match dev.access with
    | .openFail => scanTraceAux label d p opened (i + 1) rest
    | .seekFail => .openFd i :: scanTraceAux label d p (i :: opened) (i + 1) rest
    | .parseFail => .openFd i :: scanTraceAux label d p (i :: opened) (i + 1) rest
    | .table parts =>
      .openFd i ::
        match scanParts label parts 0 with
        | some n =>
          if dev.path ≠ [] ∧ itoa n ≠ [] then (i :: opened).map FdEv.closeFd
          else scanTraceAux label dev.path (itoa n) (i :: opened) (i + 1) rest
        | none =>
          if d ≠ [] ∧ p ≠ [] then (i :: opened).map FdEv.closeFd
          else scanTraceAux label d p (i :: opened) (i + 1) rest

/-- The full open/close event trace of one `deviceByPartLabel` call. -/
def deviceScanTrace (devs : List Device) (label : List Nat) : List FdEv :=
  scanTraceAux label [] [] [] 0 devs

/-- Largest number of simultaneously open handles along a trace. -/
def maxOpenAux : List FdEv → Nat → Nat → Nat
  | [], _, m => m
  | .openFd _ :: r, c, m => maxOpenAux r (c + 1) (max m (c + 1))
  | .closeFd _ :: r, c, m => maxOpenAux r (c - 1) m

/-- Largest number of simultaneously open handles of a scan. -/
def maxOpen (t : List FdEv) : Nat := maxOpenAux t 0 0

/-! ## Helper lemmas -/

/-- `resolveLoop` returns the first device path satisfying both the
prefix and the substring condition. -/
theorem resolveLoop_eq_find (d p : List Nat) :
    ∀ paths, resolveLoop d p paths =
      paths.find? (fun path => decide (d <+: path) && decide (p <:+: path.drop d.length))
  | [] => rfl
  | path :: rest => by
    by_cases h1 : d <+: path
    · by_cases h2 : p <:+: path.drop d.length
      · simp [resolveLoop, List.find?, h1, h2]
      · simp [resolveLoop, List.find?, h1, h2, resolveLoop_eq_find d p rest]
    · simp [resolveLoop, List.find?, h1, resolveLoop_eq_find d p rest]

/-! ## Claim theorems -/

/-- C8: `decodeLabel` fails exactly on odd-length input: every odd-length
input yields the odd-length error and every even-length input yields a
successful result. -/
theorem decodeLabel_odd_iff_fail (b : List Nat) :
    (b.length % 2 = 1 → decodeLabel b = .error "label has odd number of bytes")
    ∧ (b.length % 2 = 0 → ∃ out, decodeLabel b = .ok out) := by
  constructor
  · intro h
    unfold decodeLabel
    rw [if_pos (by omega)]
  · intro h
    exact ⟨trimNul (decodeLabelBytes b), by unfold decodeLabel; rw [if_neg (by omega)]⟩

/-- C8 witness: concrete odd-length failure and even-length success. -/
theorem decodeLabel_odd_iff_fail_w :
    decodeLabel [0] = .error "label has odd number of bytes"
    ∧ ∃ out, decodeLabel [0, 216] = .ok out :=
  ⟨(decodeLabel_odd_iff_fail [0]).1 (by decide),
   (decodeLabel_odd_iff_fail [0, 216]).2 (by decide)⟩

/-- C5: the partition path resolver returns the first device-list entry
that has the base device path as a prefix and whose remaining suffix
contains the decimal string of the 1-based partition index as a
substring, failing with the cannot-find error when no entry satisfies
both; concretely, devices `/dev/sda`, `/dev/sda1`, `/dev/sda2` with base
`/dev/sda` and index 2 resolve to `/dev/sda2`. -/
theorem resolvePartitionPath_spec :
    (∀ (paths : List (List Nat)) (d : List Nat) (idx : Nat),
      resolvePartitionPath paths d (itoa idx) =
        match paths.find? (fun path =>
            decide (d <+: path) && decide (itoa idx <:+: path.drop d.length)) with
        | some path => .ok path
        | none => .error (.cannotFind (itoa idx) d))
    ∧ resolvePartitionPath
        [asciiBytes "/dev/sda", asciiBytes "/dev/sda1", asciiBytes "/dev/sda2"]
        (asciiBytes "/dev/sda") (itoa 2) = .ok (asciiBytes "/dev/sda2") := by
  constructor
  · intro paths d idx
    unfold resolvePartitionPath
    rw [resolveLoop_eq_find]
  · decide

/-- C9: the code runs `defer fd.Close()` inside the device loop, so the
closes all run only when `deviceByPartLabel` returns: with two devices
that open (and seek) fine but fail GPT parsing, the second device is
opened while the first handle is still open, and two handles are open
simultaneously. -/
theorem deviceByPartLabel_handle_leak :
    deviceScanTrace
        [⟨asciiBytes "/dev/sda", .parseFail⟩, ⟨asciiBytes "/dev/sdb", .parseFail⟩] [] =
      [.openFd 0, .openFd 1, .closeFd 1, .closeFd 0]
    ∧ maxOpen (deviceScanTrace
        [⟨asciiBytes "/dev/sda", .parseFail⟩, ⟨asciiBytes "/dev/sdb", .parseFail⟩] []) = 2 := by
  decide

/-- C1 counterexample: on the valid surrogate pair D800 DC00 (U+10000,
bytes `00 D8 00 DC` little-endian) the decoded output is two replacement
characters, and does not contain the UTF-8 encoding `F0 90 80 80` of the
single supplementary character the pair encodes. -/
theorem decodeLabel_surrogate_pair_refute :
    decodeLabel [0x00, 0xD8, 0x00, 0xDC] = .ok [0xEF, 0xBF, 0xBD, 0xEF, 0xBF, 0xBD]
    ∧ utf8EncodeRune 0x10000 = [0xF0, 0x90, 0x80, 0x80]
    ∧ ¬ ([0xF0, 0x90, 0x80, 0x80] <:+: [0xEF, 0xBF, 0xBD, 0xEF, 0xBF, 0xBD]) := by
  decide

/-- C2 counterexample: the round trip fails on the valid surrogate pair
D800 DC00 (re-encoding yields `FD FF FD FF`, not the original bytes) and
on a leading NUL code unit (input `00 00 41 00` decodes to `A`, whose
re-encoding plus padding starts with `41`, not the original `00`). -/
theorem decodeLabel_roundtrip_refute :
    (decodeLabel [0x00, 0xD8, 0x00, 0xDC] = .ok [0xEF, 0xBF, 0xBD, 0xEF, 0xBF, 0xBD]
      ∧ utf16LEBytes (utf16Encode (utf8DecodeList [0xEF, 0xBF, 0xBD, 0xEF, 0xBF, 0xBD]))
          = [0xFD, 0xFF, 0xFD, 0xFF]
      ∧ [0xFD, 0xFF, 0xFD, 0xFF] ≠ [0x00, 0xD8, 0x00, 0xDC])
    ∧ (decodeLabel [0x00, 0x00, 0x41, 0x00] = .ok [0x41]
      ∧ utf16LEBytes (utf16Encode (utf8DecodeList [0x41])) = [0x41, 0x00]
      ∧ [0x41, 0x00] ++ [0x00, 0x00] ≠ [0x00, 0x00, 0x41, 0x00]) := by
  decide

/-- When every enumeration call yields an empty device list, the waiting
loop with budget `K` makes `K + 1` attempts and `K` sleeps, then fails. -/
theorem waitLoop_always_empty (enum : Nat → Option (List Device))
    (h : ∀ n, enum n = some []) :
    ∀ (i K : Nat), waitLoop enum i K = ⟨.error .noDevices, K + 1, K⟩
  | i, 0 => by simp [waitLoop, h i]
  | i, K + 1 => by
    simp [waitLoop, h i, waitLoop_always_empty enum h (i + 1) K]

/-- When the first `N` enumeration calls yield empty lists and call
`N + 1` yields a non-empty list, the waiting loop with budget `K ≥ N`
makes `N + 1` attempts and `N` sleeps, then succeeds. -/
theorem waitLoop_success (enum : Nat → Option (List Device)) :
    ∀ (N i K : Nat) (devs : List Device), N ≤ K →
      (∀ n, n < N → enum (i + n) = some []) → enum (i + N) = some devs → devs ≠ [] →
      waitLoop enum i K = ⟨.ok devs, N + 1, N⟩
  | 0, i, K, devs, _, _, hN, hne => by
    have hi : enum i = some devs := by simpa using hN
    cases K with
    | zero =>
      cases devs with
      | nil => exact absurd rfl hne
      | cons d ds => simp [waitLoop, hi]
    | succ K' =>
      cases devs with
      | nil => exact absurd rfl hne
      | cons d ds => simp [waitLoop, hi]
  | N + 1, i, K, devs, hNK, hemp, hN, hne => by
    cases K with
    | zero => omega
    | succ K' =>
      have h0 : enum i = some [] := by simpa using hemp 0 (by omega)
      have IH : waitLoop enum (i + 1) K' = ⟨.ok devs, N + 1, N⟩ :=
        waitLoop_success enum N (i + 1) K' devs (by omega)
          (fun n hn => by
            have := hemp (n + 1) (by omega)
            rwa [show i + (n + 1) = i + 1 + n by omega] at this)
          (by rwa [show i + (N + 1) = i + 1 + N by omega] at hN) hne
      simp [waitLoop, h0, IH]

/-- C3: with the filesystem check passing, if the enumerator returns zero
devices on every call then `findPartition` with retry budget `K` fails
with the no-devices error after exactly `K + 1` enumeration attempts and
`K` one-second sleeps between consecutive attempts; and if the first `N`
calls (`N ≤ K`) return zero devices while call `N + 1` returns a
non-empty list, the loop exits after exactly `N + 1` attempts and `N`
waiting iterations. -/
theorem findPartition_retry_counts
    (fsText fsType : List Nat) (enum : Nat → Option (List Device)) (label : List Nat)
    (mountOK : List Nat → Bool) (K : Nat) (hfs : fsType <:+: fsText) :
    ((∀ n, enum n = some []) →
      findPartition (some fsText) fsType enum label mountOK K = ⟨.error .noDevices, K + 1, K⟩)
    ∧ (∀ (N : Nat) (devs : List Device), N ≤ K → (∀ n, n < N → enum n = some []) →
        enum N = some devs → devs ≠ [] →
        (findPartition (some fsText) fsType enum label mountOK K).attempts = N + 1
        ∧ (findPartition (some fsText) fsType enum label mountOK K).sleeps = N) := by
  constructor
  · intro hall
    unfold findPartition
    dsimp only
    rw [if_neg (not_not_intro hfs), waitLoop_always_empty enum hall 0 K]
  · intro N devs hNK hemp hN hne
    unfold findPartition
    dsimp only
    rw [if_neg (not_not_intro hfs),
      waitLoop_success enum N 0 K devs hNK (fun n hn => by simpa using hemp n hn)
        (by simpa using hN) hne]
    rcases hdb : deviceByPartLabel devs label with e | dev
    · simp [hdb]
    · by_cases hm : mountOK dev <;> simp [hdb, hm]

/-- C3 witness: budget 2 with an always-empty enumerator gives 3 attempts
and 2 sleeps; with one empty call before a non-empty one it gives 2
attempts and 1 sleep. -/
theorem findPartition_retry_counts_w :
    findPartition (some (asciiBytes "nodev\tvfat\n")) (asciiBytes "vfat")
        (fun _ => some []) [] (fun _ => true) 2 = ⟨.error .noDevices, 3, 2⟩
    ∧ (findPartition (some (asciiBytes "nodev\tvfat\n")) (asciiBytes "vfat")
        (fun n => if n < 1 then some [] else some [⟨asciiBytes "/dev/sda", .openFail⟩])
        [] (fun _ => true) 2).attempts = 2 :=
  ⟨(findPartition_retry_counts _ _ _ _ _ 2 (by decide)).1 (fun _ => rfl),
   ((findPartition_retry_counts _ _
      (fun n => if n < 1 then some [] else some [⟨asciiBytes "/dev/sda", .openFail⟩])
      _ _ 2 (by decide)).2 1 [⟨asciiBytes "/dev/sda", .openFail⟩]
      (by omega) (fun n hn => by rw [if_pos hn]) (by rfl)
      (by intro hc; cases hc)).1⟩

/-- C6 amended: the up-front check is substring containment — exactly
when `fsType` is not a substring of the capability text, `findPartition`
fails with the unsupported-filesystem error before any enumeration
attempt (attempt and sleep counts zero); when it is a substring, no later
step can produce that error. -/
theorem findPartition_fscheck_substring
    (fsText fsType : List Nat) (enum : Nat → Option (List Device)) (label : List Nat)
    (mountOK : List Nat → Bool) (timeout : Nat) :
    (¬ fsType <:+: fsText →
      findPartition (some fsText) fsType enum label mountOK timeout
        = ⟨.error .unsupportedFS, 0, 0⟩)
    ∧ (fsType <:+: fsText →
      (findPartition (some fsText) fsType enum label mountOK timeout).result
        ≠ .error .unsupportedFS) := by
  constructor
  · intro h
    unfold findPartition
    dsimp only
    rw [if_pos h]
  · intro h
    unfold findPartition
    dsimp only
    rw [if_neg (not_not_intro h)]
    rcases hw : (waitLoop enum 0 timeout).result with e | devs
    · cases e <;> simp [hw]
    · rcases hdb : deviceByPartLabel devs label with e | dev
      · simp [hw, hdb]
      · by_cases hm : mountOK dev <;> simp [hw, hdb, hm]

/-- C6 witness: `"xfs"` is not a substring of `"nodev\tvfat\n"` and is
rejected up front; `"vfat"` is a substring and the unsupported error
never occurs. -/
theorem findPartition_fscheck_substring_w :
    findPartition (some (asciiBytes "nodev\tvfat\n")) (asciiBytes "xfs")
        (fun _ => some []) [] (fun _ => true) 0 = ⟨.error .unsupportedFS, 0, 0⟩
    ∧ (findPartition (some (asciiBytes "nodev\tvfat\n")) (asciiBytes "vfat")
        (fun _ => some []) [] (fun _ => true) 0).result ≠ .error .unsupportedFS :=
  ⟨(findPartition_fscheck_substring _ _ _ _ _ 0).1 (by decide),
   (findPartition_fscheck_substring _ _ _ _ _ 0).2 (by decide)⟩

/-- Removing a device whose inspection fails (open, seek or parse) from
anywhere in the list leaves the locate phase unchanged. -/
theorem locateAux_skip_dev (label : List Nat) (dev : Device)
    (hfail : dev.access = .openFail ∨ dev.access = .seekFail ∨ dev.access = .parseFail) :
    ∀ (pre : List Device) (d p : List Nat) (post : List Device),
      locateAux label d p (pre ++ dev :: post) = locateAux label d p (pre ++ post)
  | [], d, p, post => by
    rcases hfail with h | h | h <;> simp [locateAux, h]
  | x :: pre, d, p, post => by
    cases hx : x.access with
    | openFail => simpa [locateAux, hx] using locateAux_skip_dev label dev hfail pre d p post
    | seekFail => simpa [locateAux, hx] using locateAux_skip_dev label dev hfail pre d p post
    | parseFail => simpa [locateAux, hx] using locateAux_skip_dev label dev hfail pre d p post
    | table parts =>
      cases hs : scanParts label parts 0 with
      | some n =>
        by_cases hc : x.path ≠ [] ∧ itoa n ≠ []
        · simp [locateAux, hx, hs, hc]
        · simpa [locateAux, hx, hs, hc] using
            locateAux_skip_dev label dev hfail pre x.path (itoa n) post
      | none =>
        by_cases hc : d ≠ [] ∧ p ≠ []
        · simp [locateAux, hx, hs, hc]
        · simpa [locateAux, hx, hs, hc] using locateAux_skip_dev label dev hfail pre d p post

/-- C7: a per-device failure (open, seek or parse) skips exactly that
device wherever it occurs in the list; a per-entry decode failure skips
exactly that entry (scanning continues at the next entry with the next
index); and the locator's overall result is never such a failure — its
only errors are the not-found and cannot-resolve errors. -/
theorem deviceByPartLabel_skip_granularity :
    (∀ (label d p : List Nat) (pre post : List Device) (dev : Device),
      (dev.access = .openFail ∨ dev.access = .seekFail ∨ dev.access = .parseFail) →
      locateAux label d p (pre ++ dev :: post) = locateAux label d p (pre ++ post))
    ∧ (∀ (label : List Nat) (part : Partition) (rest : List Partition) (n : Nat) (e : String),
      part.isEmpty = false → decodeLabel part.partNameUTF16 = .error e →
      scanParts label (part :: rest) n = scanParts label rest (n + 1))
    ∧ (∀ (devs : List Device) (label : List Nat) (r : LocError),
      deviceByPartLabel devs label = .error r →
      r = .noDeviceWithLabel ∨ ∃ p d, r = .cannotFind p d) := by
  refine ⟨?_, ?_, ?_⟩
  · intro label d p pre post dev hfail
    exact locateAux_skip_dev label dev hfail pre d p post
  · intro label part rest n e hemp hdec
    simp [scanParts, hemp, hdec]
  · intro devs label r _
    cases r with
    | cannotFind p d => exact Or.inr ⟨p, d, rfl⟩
    | noDeviceWithLabel => exact Or.inl rfl

/-- C7 witness: a failing device is skipped, an undecodable entry is
skipped, and a concrete locator error is one of the two terminal
errors. -/
theorem deviceByPartLabel_skip_granularity_w :
    locateAux [65] [] [] [⟨asciiBytes "/dev/sda", .openFail⟩] = locateAux [65] [] [] []
    ∧ scanParts [65] [⟨false, [0]⟩] 0 = scanParts [65] [] 1
    ∧ (LocError.noDeviceWithLabel = .noDeviceWithLabel
        ∨ ∃ p d, LocError.noDeviceWithLabel = .cannotFind p d) :=
  ⟨deviceByPartLabel_skip_granularity.1 [65] [] [] [] [] ⟨asciiBytes "/dev/sda", .openFail⟩
      (Or.inl rfl),
   deviceByPartLabel_skip_granularity.2.1 [65] ⟨false, [0]⟩ [] 0
      "label has odd number of bytes" rfl (by decide),
   deviceByPartLabel_skip_granularity.2.2 [] [] .noDeviceWithLabel (by decide)⟩

/-- The head of a `dropWhile` result never satisfies the predicate. -/
theorem head_dropWhile_no (p : Nat → Bool) :
    ∀ (l : List Nat) (x : Nat), (List.dropWhile p l).head? = some x → p x = false
  | [], x => by simp [List.dropWhile]
  | y :: l, x => by
    by_cases hy : p y
    · simpa [List.dropWhile, hy] using head_dropWhile_no p l x
    · simp [List.dropWhile, hy]
      rintro rfl
      exact Bool.of_not_eq_true hy

/-- C10: on every even-length input the decoded bytes split as
all-NUL prefix ++ result ++ all-NUL suffix: `decodeLabel` strips NUL
from both ends (interior bytes are kept), and the returned string never
begins or ends with a NUL. -/
theorem decodeLabel_trims_both_ends (b : List Nat) (hb : b.length % 2 = 0) :
    ∃ out pre post, decodeLabel b = .ok out
      ∧ decodeLabelBytes b = pre ++ out ++ post
      ∧ (∀ x ∈ pre, x = 0) ∧ (∀ x ∈ post, x = 0)
      ∧ out.head? ≠ some 0 ∧ out.getLast? ≠ some 0 := by
  have hok : decodeLabel b = .ok (trimNul (decodeLabelBytes b)) := by
    unfold decodeLabel
    rw [if_neg (by omega)]
  set l := decodeLabelBytes b with hl
  set l1 := l.dropWhile (· == 0) with hl1
  set l2 := l1.reverse.dropWhile (· == 0) with hl2
  have htrim : trimNul l = l2.reverse := rfl
  have hsplit1 : l.takeWhile (· == 0) ++ l1 = l := List.takeWhile_append_dropWhile _ _
  have hsplit2 : l1.reverse.takeWhile (· == 0) ++ l2 = l1.reverse :=
    List.takeWhile_append_dropWhile _ _
  have hl1eq : l1 = l2.reverse ++ (l1.reverse.takeWhile (· == 0)).reverse := by
    have := congrArg List.reverse hsplit2
    simpa using this.symm
  refine ⟨trimNul l, l.takeWhile (· == 0), (l1.reverse.takeWhile (· == 0)).reverse,
    hok, ?_, ?_, ?_, ?_, ?_⟩
  · rw [htrim, List.append_assoc, ← hl1eq, hsplit1]
  · intro x hx
    simpa using List.mem_takeWhile_imp hx
  · intro x hx
    rw [List.mem_reverse] at hx
    simpa using List.mem_takeWhile_imp hx
  · rw [htrim, List.head?_reverse]
    intro hc
    have h2ne : l2 ≠ [] := by
      intro h
      rw [h] at hc
      simp at hc
    have e1 : (l1.reverse.takeWhile (· == 0) ++ l2).getLast? = l2.getLast? :=
      List.getLast?_append_of_ne_nil _ h2ne
    rw [hsplit2, List.getLast?_reverse] at e1
    have hfalse := head_dropWhile_no (· == 0) l 0 (e1.trans hc)
    simp at hfalse
  · rw [htrim, List.getLast?_reverse]
    intro hc
    have hfalse := head_dropWhile_no (· == 0) l1.reverse 0 hc
    simp at hfalse

/-- C10 witness: input `00 00 41 00 00 00 42 00 00 00` (NUL, A, NUL, B,
NUL as code units) decodes with the leading and trailing NULs stripped
and the interior NUL kept. -/
theorem decodeLabel_trims_both_ends_w :
    ∃ out pre post,
      decodeLabel [0x00, 0x00, 0x41, 0x00, 0x00, 0x00, 0x42, 0x00, 0x00, 0x00] = .ok out
      ∧ decodeLabelBytes [0x00, 0x00, 0x41, 0x00, 0x00, 0x00, 0x42, 0x00, 0x00, 0x00]
          = pre ++ out ++ post
      ∧ (∀ x ∈ pre, x = 0) ∧ (∀ x ∈ post, x = 0)
      ∧ out.head? ≠ some 0 ∧ out.getLast? ≠ some 0 :=
  decodeLabel_trims_both_ends [0x00, 0x00, 0x41, 0x00, 0x00, 0x00, 0x42, 0x00, 0x00, 0x00]
    (by decide)

/-- The byte length of the little-endian serialization of `us` code
units is `2 * us.length`. -/
theorem utf16LEBytes_length : ∀ us : List Nat, (utf16LEBytes us).length = 2 * us.length
  | [] => rfl
  | u :: us => by
    show ([u % 256, u / 256] ++ utf16LEBytes us).length = 2 * (us.length + 1)
    rw [List.length_append, utf16LEBytes_length us]
    simp
    omega

/-- The decode loop over serialized code units followed by `rest`: each
unit is reassembled and decoded on its own. -/
theorem decodeLabelBytes_units (rest : List Nat) :
    ∀ us : List Nat, (∀ u ∈ us, u < 65536) →
      decodeLabelBytes (utf16LEBytes us ++ rest)
        = flatCat (us.map (fun u => utf8EncodeRune (utf16DecodeUnit u)))
            ++ decodeLabelBytes rest
  | [], _ => by simp [utf16LEBytes, flatCat]
  | u :: us, h => by
    have hu : u % 256 + u / 256 * 256 = u := by
      have : u < 65536 := h u (by simp)
      omega
    show decodeLabelBytes (u % 256 :: u / 256 :: (utf16LEBytes us ++ rest)) = _
    rw [decodeLabelBytes, hu,
      decodeLabelBytes_units rest us (fun v hv => h v (List.mem_cons_of_mem _ hv))]
    show _ = (utf8EncodeRune (utf16DecodeUnit u)
        ++ flatCat (us.map (fun v => utf8EncodeRune (utf16DecodeUnit v)))) ++ _
    rw [List.append_assoc]

/-- C1 amended: `decodeLabel` decodes each 16-bit code unit independently
(no surrogate-pair combining): the output is the concatenation of the
per-unit decodings, trimmed; and each surrogate code unit — in
particular each half of a valid pair — contributes the UTF-8 encoding of
the replacement character U+FFFD, so a valid surrogate pair yields two
replacement characters instead of the supplementary character. -/
theorem decodeLabel_per_unit_decode :
    (∀ us : List Nat, (∀ u ∈ us, u < 65536) →
      decodeLabel (utf16LEBytes us)
        = .ok (trimNul (flatCat (us.map (fun u => utf8EncodeRune (utf16DecodeUnit u))))))
    ∧ (∀ u : Nat, isSurrogate u →
        utf8EncodeRune (utf16DecodeUnit u) = [0xEF, 0xBF, 0xBD]) := by
  constructor
  · intro us h
    unfold decodeLabel
    rw [if_neg (by rw [utf16LEBytes_length]; omega)]
    have h2 := decodeLabelBytes_units [] us h
    rw [List.append_nil] at h2
    rw [h2, show decodeLabelBytes ([] : List Nat) = [] from rfl, List.append_nil]
  · intro u hs
    unfold utf16DecodeUnit
    rw [if_pos hs]
    decide

/-- C1 witness: the valid surrogate pair D800 DC00 decodes unit by unit,
each half to the replacement character. -/
theorem decodeLabel_per_unit_decode_w :
    decodeLabel (utf16LEBytes [0xD800, 0xDC00])
      = .ok (trimNul (flatCat ([0xD800, 0xDC00].map
          (fun u => utf8EncodeRune (utf16DecodeUnit u)))))
    ∧ utf8EncodeRune (utf16DecodeUnit 0xD800) = [0xEF, 0xBF, 0xBD] :=
  ⟨decodeLabel_per_unit_decode.1 [0xD800, 0xDC00] (by decide),
   decodeLabel_per_unit_decode.2 0xD800 (by decide)⟩

/-- Decoding an all-zero byte buffer yields only zero bytes. -/
theorem decodeLabelBytes_zeros : ∀ b : List Nat, (∀ x ∈ b, x = 0) →
    ∀ y ∈ decodeLabelBytes b, y = 0
  | [], _ => by simp [decodeLabelBytes]
  | [x], _ => by simp [decodeLabelBytes]
  | x :: y :: tl, h => by
    intro z hz
    have hx : x = 0 := h x (by simp)
    have hy : y = 0 := h y (by simp)
    subst hx
    subst hy
    rw [decodeLabelBytes, show utf8EncodeRune (utf16DecodeUnit (0 + 0 * 256)) = [0] from by
      decide] at hz
    rcases List.mem_append.mp hz with hz | hz
    · simpa using hz
    · exact decodeLabelBytes_zeros tl (fun w hw => h w (by simp [hw])) z hz

/-- `utf8EncodeRune` never yields the empty byte list. -/
theorem utf8EncodeRune_ne_nil (u : Nat) : utf8EncodeRune u ≠ [] := by
  unfold utf8EncodeRune
  split_ifs <;> simp

/-- The first UTF-8 byte of a nonzero rune is nonzero. -/
theorem utf8EncodeRune_head_ne_zero (u : Nat) (hu : u ≠ 0) :
    ∀ x, (utf8EncodeRune u).head? = some x → x ≠ 0 := by
  intro x hx
  unfold utf8EncodeRune at hx
  split_ifs at hx <;> simp at hx <;> omega

/-- The last UTF-8 byte of a nonzero rune is nonzero. -/
theorem utf8EncodeRune_last_ne_zero (u : Nat) (hu : u ≠ 0) :
    ∀ x, (utf8EncodeRune u).getLast? = some x → x ≠ 0 := by
  intro x hx
  unfold utf8EncodeRune at hx
  split_ifs at hx <;> simp at hx <;> omega

/-- If the unit sequence does not start with NUL, neither does the
concatenation of per-unit UTF-8 encodings. -/
theorem flatCat_encode_head (us : List Nat) (h : us.head? ≠ some 0) :
    (flatCat (us.map utf8EncodeRune)).head? ≠ some 0 := by
  cases us with
  | nil => simp [flatCat]
  | cons u tl =>
    have hu : u ≠ 0 := by simpa using h
    intro hc
    rw [show flatCat ((u :: tl).map utf8EncodeRune)
        = utf8EncodeRune u ++ flatCat (tl.map utf8EncodeRune) from rfl,
      List.head?_append_of_ne_nil _ (utf8EncodeRune_ne_nil u)] at hc
    exact utf8EncodeRune_head_ne_zero u hu 0 hc rfl

/-- If the unit sequence does not end with NUL, neither does the
concatenation of per-unit UTF-8 encodings. -/
theorem flatCat_encode_last : ∀ us : List Nat, us.getLast? ≠ some 0 →
    (flatCat (us.map utf8EncodeRune)).getLast? ≠ some 0
  | [] => by simp [flatCat]
  | [u] => by
    intro h hc
    have hu : u ≠ 0 := by simpa using h
    rw [show flatCat ([u].map utf8EncodeRune) = utf8EncodeRune u ++ [] from rfl,
      List.append_nil] at hc
    exact utf8EncodeRune_last_ne_zero u hu 0 hc rfl
  | u :: v :: tl => by
    intro h hc
    have h' : (v :: tl).getLast? ≠ some 0 := by rwa [List.getLast?_cons_cons] at h
    rw [show flatCat ((u :: v :: tl).map utf8EncodeRune)
        = utf8EncodeRune u ++ flatCat ((v :: tl).map utf8EncodeRune) from rfl] at hc
    have hne : flatCat ((v :: tl).map utf8EncodeRune) ≠ [] := by
      rw [show flatCat ((v :: tl).map utf8EncodeRune)
          = utf8EncodeRune v ++ flatCat (tl.map utf8EncodeRune) from rfl]
      intro hh
      exact utf8EncodeRune_ne_nil v (List.append_eq_nil.mp hh).1
    rw [List.getLast?_append_of_ne_nil _ hne] at hc
    exact flatCat_encode_last (v :: tl) h' hc

/-- Dropping over a block that satisfies the predicate throughout. -/
theorem dropWhile_append_all (p : Nat → Bool) :
    ∀ (a b : List Nat), (∀ x ∈ a, p x = true) →
      List.dropWhile p (a ++ b) = List.dropWhile p b
  | [], _, _ => rfl
  | x :: a, b, h => by
    have hx : p x = true := h x (by simp)
    rw [List.cons_append, List.dropWhile_cons, if_pos hx]
    exact dropWhile_append_all p a b (fun y hy => h y (by simp [hy]))

/-- Trimming NULs from a string with no NUL at either end, followed by
an all-zero block, returns the string unchanged. -/
theorem trimNul_append_zeros (core z : List Nat) (hz : ∀ x ∈ z, x = 0)
    (hh : core.head? ≠ some 0) (hl : core.getLast? ≠ some 0) :
    trimNul (core ++ z) = core := by
  unfold trimNul
  cases core with
  | nil =>
    rw [List.nil_append]
    have h1 : List.dropWhile (· == 0) z = [] := by
      have := dropWhile_append_all (· == 0) z [] (fun x hx => by simp [hz x hx])
      simpa using this
    rw [h1]
    simp
  | cons c t =>
    have hc : c ≠ 0 := by simpa using hh
    rw [List.cons_append, List.dropWhile_cons, if_neg (by simp [hc]), ← List.cons_append,
      List.reverse_append,
      dropWhile_append_all _ _ _ (fun x hx => by simp [hz x (List.mem_reverse.mp hx)])]
    rcases hrev : (c :: t).reverse with _ | ⟨d, s⟩
    · exact absurd hrev (by simp)
    · have hgl : (c :: t).getLast? = some d := by
        rw [← List.head?_reverse, hrev]
        rfl
      have hd : d ≠ 0 := fun h0 => hl (by rw [hgl, h0])
      rw [List.dropWhile_cons, if_neg (by simp [hd]), ← hrev, List.reverse_reverse]

/-- `utf8DecodeList` on an ASCII leading byte. -/
theorem utf8DecodeList_cons1 (b0 : Nat) (rest : List Nat) (h1 : b0 < 0x80) :
    utf8DecodeList (b0 :: rest) = b0 :: utf8DecodeList rest := by
  rcases rest with _ | ⟨b1, _ | ⟨b2, _ | ⟨b3, r⟩⟩⟩ <;> simp [utf8DecodeList, h1]

/-- `utf8DecodeList` on a two-byte leading byte. -/
theorem utf8DecodeList_cons2 (b0 b1 : Nat) (rest : List Nat)
    (h1 : ¬ b0 < 0x80) (h2 : b0 < 0xE0) :
    utf8DecodeList (b0 :: b1 :: rest)
      = ((b0 - 0xC0) * 64 + (b1 - 0x80)) :: utf8DecodeList rest := by
  rcases rest with _ | ⟨b2, _ | ⟨b3, r⟩⟩ <;> simp [utf8DecodeList, h1, h2]

/-- `utf8DecodeList` on a three-byte leading byte. -/
theorem utf8DecodeList_cons3 (b0 b1 b2 : Nat) (rest : List Nat)
    (h1 : ¬ b0 < 0x80) (h2 : ¬ b0 < 0xE0) (h3 : b0 < 0xF0) :
    utf8DecodeList (b0 :: b1 :: b2 :: rest)
      = ((b0 - 0xE0) * 4096 + (b1 - 0x80) * 64 + (b2 - 0x80)) :: utf8DecodeList rest := by
  rcases rest with _ | ⟨b3, r⟩ <;> simp [utf8DecodeList, h1, h2, h3]

/-- Decoding the UTF-8 encoding of a basic-plane non-surrogate scalar in
front of any tail recovers the scalar. -/
theorem utf8DecodeList_encode (u : Nat) (hu : u < 65536) (hs : ¬ isSurrogate u)
    (rest : List Nat) :
    utf8DecodeList (utf8EncodeRune u ++ rest) = u :: utf8DecodeList rest := by
  unfold utf8EncodeRune
  by_cases h1 : u ≤ 0x7F
  · rw [if_pos h1]
    show utf8DecodeList (u :: rest) = u :: utf8DecodeList rest
    rw [utf8DecodeList_cons1 u rest (by omega)]
  · rw [if_neg h1]
    by_cases h2 : u ≤ 0x7FF
    · rw [if_pos h2]
      show utf8DecodeList ((0xC0 + u / 64) :: (0x80 + u % 64) :: rest) = _
      rw [utf8DecodeList_cons2 _ _ rest (by omega) (by omega),
        show (0xC0 + u / 64 - 0xC0) * 64 + (0x80 + u % 64 - 0x80) = u by omega]
    · have h3 : ¬ (0x10FFFF < u ∨ isSurrogate u) := by
        rintro (h | h)
        · omega
        · exact hs h
      rw [if_neg h2, if_neg h3, if_pos (by omega : u ≤ 0xFFFF)]
      show utf8DecodeList
        ((0xE0 + u / 4096) :: (0x80 + u / 64 % 64) :: (0x80 + u % 64) :: rest) = _
      rw [utf8DecodeList_cons3 _ _ _ rest (by omega) (by omega) (by omega),
        show (0xE0 + u / 4096 - 0xE0) * 4096 + (0x80 + u / 64 % 64 - 0x80) * 64
          + (0x80 + u % 64 - 0x80) = u by omega]

/-- UTF-8 round trip over a concatenation of encoded basic-plane
non-surrogate scalars. -/
theorem utf8DecodeList_flatCat : ∀ us : List Nat,
    (∀ u ∈ us, u < 65536 ∧ ¬ isSurrogate u) →
    utf8DecodeList (flatCat (us.map utf8EncodeRune)) = us
  | [], _ => rfl
  | u :: us, h => by
    have hu := h u (by simp)
    rw [show flatCat ((u :: us).map utf8EncodeRune)
        = utf8EncodeRune u ++ flatCat (us.map utf8EncodeRune) from rfl,
      utf8DecodeList_encode u hu.1 hu.2,
      utf8DecodeList_flatCat us (fun v hv => h v (by simp [hv]))]

/-- UTF-16 encoding is the identity on basic-plane scalars. -/
theorem utf16Encode_bmp : ∀ us : List Nat, (∀ u ∈ us, u < 65536) → utf16Encode us = us
  | [], _ => rfl
  | u :: us, h => by
    have hu : u < 65536 := h u (by simp)
    show utf16EncodeRune u ++ utf16Encode us = u :: us
    rw [show utf16EncodeRune u = [u] from by unfold utf16EncodeRune; rw [if_pos (by omega)],
      utf16Encode_bmp us (fun v hv => h v (by simp [hv]))]
    rfl

/-- C2 amended: for every even-length byte sequence of basic-plane
non-surrogate UTF-16LE code units, with no NUL in first or last unit
position, followed by trailing NUL padding, `decodeLabel` followed by
re-encoding to UTF-16LE reproduces the original non-NUL prefix.  (As
stated the claim fails: surrogate pairs — although valid UTF-16 — are
decoded per unit into replacement characters, and a leading NUL unit is
trimmed away; see the counterexample.) -/
theorem decodeLabel_roundtrip_bmp (us padBytes : List Nat)
    (hu : ∀ u ∈ us, u < 65536 ∧ ¬ isSurrogate u)
    (hh : us.head? ≠ some 0) (hl : us.getLast? ≠ some 0)
    (hp : ∀ x ∈ padBytes, x = 0) (hpe : padBytes.length % 2 = 0) :
    ∃ out, decodeLabel (utf16LEBytes us ++ padBytes) = .ok out
      ∧ utf16LEBytes (utf16Encode (utf8DecodeList out)) = utf16LEBytes us := by
  have hlen : (utf16LEBytes us ++ padBytes).length % 2 = 0 := by
    rw [List.length_append, utf16LEBytes_length]
    omega
  have hdec := decodeLabelBytes_units padBytes us (fun v hv => (hu v hv).1)
  have hmap : us.map (fun u => utf8EncodeRune (utf16DecodeUnit u))
      = us.map utf8EncodeRune := by
    apply List.map_congr_left
    intro v hv
    unfold utf16DecodeUnit
    rw [if_neg (hu v hv).2]
  have hz : ∀ y ∈ decodeLabelBytes padBytes, y = 0 := decodeLabelBytes_zeros padBytes hp
  have hok : decodeLabel (utf16LEBytes us ++ padBytes)
      = .ok (trimNul (decodeLabelBytes (utf16LEBytes us ++ padBytes))) := by
    unfold decodeLabel
    rw [if_neg (by omega)]
  refine ⟨flatCat (us.map utf8EncodeRune), ?_, ?_⟩
  · rw [hok, hdec, hmap, trimNul_append_zeros _ _ hz (flatCat_encode_head us hh)
      (flatCat_encode_last us hl)]
  · rw [utf8DecodeList_flatCat us hu, utf16Encode_bmp us (fun v hv => (hu v hv).1)]

/-- C2 witness: the units of `"AB"` with four bytes of NUL padding
round-trip to the original serialized units. -/
theorem decodeLabel_roundtrip_bmp_w :
    ∃ out, decodeLabel (utf16LEBytes [0x41, 0x42] ++ [0, 0, 0, 0]) = .ok out
      ∧ utf16LEBytes (utf16Encode (utf8DecodeList out)) = utf16LEBytes [0x41, 0x42] :=
  decodeLabel_roundtrip_bmp [0x41, 0x42] [0, 0, 0, 0] (by decide) (by decide) (by decide)
    (by decide) (by decide)

/-- `strconv.Itoa` never returns an empty string. -/
theorem itoa_ne_nil (n : Nat) : itoa n ≠ [] := by
  unfold itoa
  split_ifs with h
  · simp
  · cases n with
    | zero => exact absurd rfl h
    | succ m => simp [itoaAux]

/-- The inner loop of `deviceByPartLabel` computes the claim-side
first-match index. -/
theorem scanParts_eq_spec (label : List Nat) : ∀ (parts : List Partition) (n : Nat),
    scanParts label parts n = findEntrySpec label parts n
  | [], _ => rfl
  | part :: rest, n => by
    by_cases he : part.isEmpty
    · simp [scanParts, findEntrySpec, he, scanParts_eq_spec label rest (n + 1)]
    · cases hd : decodeLabel part.partNameUTF16 with
      | error e => simp [scanParts, findEntrySpec, he, hd, scanParts_eq_spec label rest (n + 1)]
      | ok l =>
        by_cases hl : l = label
        · simp [scanParts, findEntrySpec, he, hd, hl]
        · simp [scanParts, findEntrySpec, he, hd, hl, scanParts_eq_spec label rest (n + 1)]

/-- With nonempty device paths, the outer loop of `deviceByPartLabel`
computes the claim-side first match (device path and 1-based entry
index), and sets nothing when there is none. -/
theorem locateAux_eq_spec (label : List Nat) : ∀ devs : List Device,
    (∀ dev ∈ devs, dev.path ≠ []) →
    (locateSpec label devs = none → locateAux label [] [] devs = ([], []))
    ∧ (∀ d n, locateSpec label devs = some (d, n) →
        d ≠ [] ∧ locateAux label [] [] devs = (d, itoa n))
  | [], _ => by simp [locateSpec, locateAux]
  | dev :: rest, hpaths => by
    have hrest := locateAux_eq_spec label rest (fun x hx => hpaths x (by simp [hx]))
    cases ha : dev.access with
    | table parts =>
      cases hf : findEntrySpec label parts 0 with
      | some m =>
        constructor
        · intro hnone
          simp [locateSpec, ha, hf] at hnone
        · intro d n hsome
          simp [locateSpec, ha, hf] at hsome
          refine ⟨by rw [← hsome.1]; exact hpaths dev (by simp), ?_⟩
          rw [locateAux, ha]
          dsimp only
          rw [scanParts_eq_spec label parts 0, hf]
          dsimp only
          rw [if_pos ⟨hpaths dev (by simp), itoa_ne_nil m⟩, hsome.1, hsome.2]
      | none =>
        constructor
        · intro hnone
          rw [locateAux, ha]
          dsimp only
          rw [scanParts_eq_spec label parts 0, hf]
          dsimp only
          rw [if_neg (by simp)]
          exact hrest.1 (by simpa [locateSpec, ha, hf] using hnone)
        · intro d n hsome
          rw [locateAux, ha]
          dsimp only
          rw [scanParts_eq_spec label parts 0, hf]
          dsimp only
          rw [if_neg (by simp)]
          exact hrest.2 d n (by simpa [locateSpec, ha, hf] using hsome)
    | openFail =>
      constructor
      · intro hnone
        rw [locateAux, ha]
        exact hrest.1 (by simpa [locateSpec, ha] using hnone)
      · intro d n hsome
        rw [locateAux, ha]
        exact hrest.2 d n (by simpa [locateSpec, ha] using hsome)
    | seekFail =>
      constructor
      · intro hnone
        rw [locateAux, ha]
        exact hrest.1 (by simpa [locateSpec, ha] using hnone)
      · intro d n hsome
        rw [locateAux, ha]
        exact hrest.2 d n (by simpa [locateSpec, ha] using hsome)
    | parseFail =>
      constructor
      · intro hnone
        rw [locateAux, ha]
        exact hrest.1 (by simpa [locateSpec, ha] using hnone)
      · intro d n hsome
        rw [locateAux, ha]
        exact hrest.2 d n (by simpa [locateSpec, ha] using hsome)

/-- C4: over devices with nonempty paths (as produced by the enumerator),
`deviceByPartLabel` scans devices in list order and each parsed partition
array in order with 1-based indexing, skipping empty and undecodable
entries; the first exact label match stops the whole scan and its device
and index feed the resolution phase, and when no entry matches the
not-found error is returned. -/
theorem deviceByPartLabel_first_match (devs : List Device) (label : List Nat)
    (hpaths : ∀ dev ∈ devs, dev.path ≠ []) :
    deviceByPartLabel devs label =
      match locateSpec label devs with
      | some (d, n) => resolvePartitionPath (devs.map Device.path) d (itoa n)
      | none => .error .noDeviceWithLabel := by
  cases hs : locateSpec label devs with
  | none =>
    have h1 := (locateAux_eq_spec label devs hpaths).1 hs
    unfold deviceByPartLabel
    rw [h1]
    simp
  | some dn =>
    obtain ⟨d, n⟩ := dn
    have h1 := (locateAux_eq_spec label devs hpaths).2 d n hs
    unfold deviceByPartLabel
    rw [h1.2]
    exact if_pos ⟨h1.1, itoa_ne_nil n⟩

/-- C4 witness: a device whose GPT holds a partition labeled `STBOOT`
matches and resolves through the claim-side first-match view. -/
theorem deviceByPartLabel_first_match_w :
    deviceByPartLabel
        [⟨asciiBytes "/dev/sda",
            .table [⟨false, [83, 0, 84, 0, 66, 0, 79, 0, 79, 0, 84, 0]⟩]⟩,
         ⟨asciiBytes "/dev/sda1", .openFail⟩] (asciiBytes "STBOOT") =
      match locateSpec (asciiBytes "STBOOT")
          [⟨asciiBytes "/dev/sda",
              .table [⟨false, [83, 0, 84, 0, 66, 0, 79, 0, 79, 0, 84, 0]⟩]⟩,
           ⟨asciiBytes "/dev/sda1", .openFail⟩] with
      | some (d, n) =>
        resolvePartitionPath
          ([⟨asciiBytes "/dev/sda",
              .table [⟨false, [83, 0, 84, 0, 66, 0, 79, 0, 79, 0, 84, 0]⟩]⟩,
            ⟨asciiBytes "/dev/sda1", .openFail⟩].map Device.path) d (itoa n)
      | none => .error .noDeviceWithLabel :=
  deviceByPartLabel_first_match _ (asciiBytes "STBOOT") (by decide)

/-- C6 counterexample: with capability list `"nodev\tvfat\n"` and
requested type `"fa"`, the check accepts (the run proceeds past it to the
device wait) although `"fa"` is not a listed filesystem type — the code
tests substring containment of the whole text, not membership in the
list of types. -/
theorem fsType_substring_refute :
    (findPartition (some (asciiBytes "nodev\tvfat\n")) (asciiBytes "fa")
        (fun _ => some []) [] (fun _ => true) 0).result = .error .noDevices
    ∧ ¬ asciiBytes "fa" ∈ listedTypesSpec (asciiBytes "nodev\tvfat\n") := by
  decide
